import Mathlib

/-
Verification of the destination-rule multi-match checker
(`business/checkers/destinationrules/multi_match_checker.go`).

The Go code works over untyped attribute maps (`map[string]interface{}`),
Go maps, and slices.  We embed:
  * `interface{}` values as the inductive `Val`;
  * Go maps as association lists with unique keys, accessed through
    `assocGet` / `assocSet` (Go map indexing and assignment);
  * Go's `strings.Split(s, ".")` / `strings.Join(l, ".")` as `splitHost`
    / `joinDots`, implemented structurally over the character list so
    that concrete instances evaluate in the kernel;
  * Go's `range` over a map, whose iteration order is unspecified, as an
    explicit reordering function applied to the association list at each
    of the two `range`-over-map sites (`σ` for the inner subset-owner
    map in `checkCollisions`, `τ` for the outer seen-hosts map in
    `Check`).  `CheckRun` instantiates both with `id`.
-/

set_option autoImplicit false

namespace DestinationRules

/-- A Go `interface{}` value as it appears in a decoded spec: a string, a
slice, a string-keyed map, or some other value (any type assertion on
`other` fails, as it does in Go for e.g. numbers or booleans). -/
inductive Val where
  | str : String → Val
  | list : List Val → Val
  | map : List (String × Val) → Val
  | other : Val

/-- Go map indexing `m[k]`: the value stored for key `k`, if present.
The lists we build always have unique keys, matching a Go map. -/
def assocGet {α : Type} : List (String × α) → String → Option α
  | [], _ => none
  | p :: rest, k => if p.1 = k then some p.2 else assocGet rest k

/-- Go map assignment `m[k] = v`: replace the entry for `k` if present,
otherwise add one. -/
def assocSet {α : Type} : List (String × α) → String → α → List (String × α)
  | [], k, v => [(k, v)]
  | p :: rest, k, v => if p.1 = k then (k, v) :: rest else p :: assocSet rest k v

/-- Split a character list at every `'.'`, keeping empty fields, as Go's
`strings.Split(s, ".")` does.  `acc` holds the current field reversed. -/
def splitDotsAux : List Char → List Char → List (List Char)
  | [], acc => [acc.reverse]
  | ch :: rest, acc =>
    if ch = '.' then acc.reverse :: splitDotsAux rest [] else splitDotsAux rest (ch :: acc)

/-- Go's `strings.Split(hostName, ".")`.  Always returns a non-empty
list; `splitHost "" = [""]`. -/
def splitHost (s : String) : List String :=
  (splitDotsAux s.data []).map (fun cs => String.mk cs)

/-- Character-level body of `joinDots`. -/
def joinChars : List String → List Char
  | [] => []
  | [x] => x.data
  | x :: rest => x.data ++ '.' :: joinChars rest

/-- Go's `strings.Join(l, ".")`. -/
def joinDots (l : List String) : String :=
  String.mk (joinChars l)

/-- The object metadata the checker reads: `Name`, `Namespace`,
`ClusterName` of `GetObjectMeta()`. -/
structure ObjectMeta where
  Name : String
  Namespace : String
  ClusterName : String
deriving DecidableEq

/-- The slice of a `kubernetes.IstioObject` the checker uses: its
metadata and its decoded spec map. -/
structure IstioObject where
  GetObjectMeta : ObjectMeta
  GetSpec : List (String × Val)

/-- `models.IstioValidationKey`: identity name plus object type. -/
structure IstioValidationKey where
  Name : String
  ObjectType : String
deriving DecidableEq

/-- Modelled from the spec: `models.IstioCheck` (package `models` is not
in the sources) carries the fixed check code and attribute path of a
finding (§6 output contract). -/
structure IstioCheck where
  Code : String
  Path : String
deriving DecidableEq

/-- Modelled from the spec: `models.Build(code, path)` builds the check
record from its code and path (§6 output contract). -/
def Build (code path : String) : IstioCheck :=
  ⟨code, path⟩

/-- `models.IstioValidation`: one recorded finding value. -/
structure IstioValidation where
  Name : String
  ObjectType : String
  Valid : Bool
  Checks : List IstioCheck
deriving DecidableEq

/-- `models.IstioValidations`: the findings map, keyed by
`IstioValidationKey`.  As everywhere we use an association list with
unique keys for a Go map; `valGet` below is its indexing. -/
abbrev IstioValidations := List (IstioValidationKey × IstioValidation)

/-- Indexing of the findings map. -/
def valGet : IstioValidations → IstioValidationKey → Option IstioValidation
  | [], _ => none
  | p :: rest, k => if p.1 = k then some p.2 else valGet rest k

/-- Modelled from the spec: `MergeValidations` merges additively by key;
keys already present are not overwritten (§6 output contract). -/
def MergeValidations (vals extra : IstioValidations) : IstioValidations :=
  vals ++ extra.filter (fun p => (valGet vals p.1).isNone)

/-- `const DestinationRulesCheckerType = "destinationrule"`. -/
def DestinationRulesCheckerType : String := "destinationrule"

/-- The `Host` structure: normalized `{Service, Namespace, Cluster}`. -/
structure Host where
  Service : String
  Namespace : String
  Cluster : String
deriving DecidableEq

/-- The `subset` structure: a subset name together with the name of the
destination rule that declared it. -/
structure subset where
  Name : String
  RuleName : String
deriving DecidableEq

/-- The checker: holds the destination rules to validate. -/
structure MultiMatchChecker where
  DestinationRules : List IstioObject

/-- `FormatHostnameForPrefixSearch`: split the host on `.`; the first
segment is the service, the second (when present) the namespace, the
rest joined with `.` the cluster; empty namespace/cluster fall back to
the destination rule's own metadata. -/
def FormatHostnameForPrefixSearch (hostName namespaceArg clusterNameArg : String) : Host :=
  let domainParts := splitHost hostName
  let host0 : Host := { Service := domainParts.headD "", Namespace := "", Cluster := "" }
  let host1 :=
    if 1 < domainParts.length then
      let host1a := { host0 with Namespace := domainParts.getD 1 "" }
      if 2 < domainParts.length then
        { host1a with Cluster := joinDots (domainParts.drop 2) }
      else host1a
    else host0
  let host2 := if host1.Cluster = "" then { host1 with Cluster := clusterNameArg } else host1
  if host2.Namespace = "" then { host2 with Namespace := namespaceArg } else host2

/-- `enablesNonLocalmTLS`: true only for a wildcard-service host whose
`trafficPolicy.tls.mode` attribute is the string `ISTIO_MUTUAL`; every
failed lookup or type assertion yields false. -/
def enablesNonLocalmTLS (dr : IstioObject) (fdqn : Host) : Bool :=
  if fdqn.Service ≠ "*" then false
  else
    match assocGet dr.GetSpec "trafficPolicy" with
    | some (Val.map trafficCasted) =>
      match assocGet trafficCasted "tls" with
      | some (Val.map tlsCasted) =>
        match assocGet tlsCasted "mode" with
        | some (Val.str modeCasted) => modeCasted = "ISTIO_MUTUAL"
        | _ => false
      | _ => false
    | _ => false

/-- `extractSubsets`: when the `subsets` attribute is a slice, one
`subset` per entry that is a map with a string `name`; otherwise the
single sentinel subset `"~"`. -/
def extractSubsets (dr : IstioObject) (destinationRulesName : String) : List subset :=
  match assocGet dr.GetSpec "subsets" with
  | some (Val.list subsetSlice) =>
    subsetSlice.filterMap (fun se =>
      match se with
      | Val.map element =>
        match assocGet element "name" with
        | some (Val.str n) => some ⟨n, destinationRulesName⟩
        | _ => none
      | _ => none)
  | some _ => [⟨"~", destinationRulesName⟩]
  | none => [⟨"~", destinationRulesName⟩]

/-- The guard `len(foundSubsets) == 1 && foundSubsets[0].Name == "~"` of
`checkCollisions`. -/
def isSentinelOnly : List subset → Bool
  | [s] => s.Name = "~"
  | _ => false

/-- `addError`: for each listed rule name, record the canonical finding
under its key unless a finding for that key already exists. -/
def addError (validations : IstioValidations) (destinationRuleNames : List String) : IstioValidations :=
  destinationRuleNames.foldl (fun vals destinationRuleName =>
    let key : IstioValidationKey := ⟨destinationRuleName, DestinationRulesCheckerType⟩
    let checks := Build "destinationrules.multimatch" "spec/host"
    let rrValidation : IstioValidation :=
      { Name := destinationRuleName
        ObjectType := DestinationRulesCheckerType
        Valid := true
        Checks := [checks] }
    if (valGet vals key).isNone then MergeValidations vals [(key, rrValidation)] else vals)
    validations

/-- The subset-name → owning-rule map kept per service. -/
abbrev SubsetOwners := List (String × String)

/-- The `seenHostSubsets` index: service name → subset owners. -/
abbrev SeenHostSubsets := List (String × SubsetOwners)

/-- `checkCollisions`: flag the current rule against one previously seen
service entry.  `σ` fixes the (unspecified) iteration order of the Go
`range` over `existing` in the sentinel branch; lookups use `existing`
itself, exactly as Go map indexing does. -/
def checkCollisions (σ : SubsetOwners → SubsetOwners) (validations : IstioValidations)
    (destinationRulesName : String) (foundSubsets : List subset)
    (existing : SubsetOwners) : IstioValidations :=
  let v1 :=
    if isSentinelOnly foundSubsets then
      ((σ existing).map Prod.snd).foldl
        (fun vals v => addError vals [destinationRulesName, v]) validations
    else validations
  let v2 :=
    match assocGet existing "~" with
    | some ruleName => addError v1 [destinationRulesName, ruleName]
    | none => v1
  foundSubsets.foldl
    (fun vals s =>
      match assocGet existing s.Name with
      | some ruleName => addError vals [destinationRulesName, ruleName]
      | none => vals) v2

/-- One iteration of the loop body of `Check` for a single destination
rule, threading the findings map and the seen-hosts index. -/
def checkStep (σ : SubsetOwners → SubsetOwners) (τ : SeenHostSubsets → SeenHostSubsets)
    (st : IstioValidations × SeenHostSubsets) (dr : IstioObject) :
    IstioValidations × SeenHostSubsets :=
  match assocGet dr.GetSpec "host" with
  | some host =>
    let destinationRulesName := dr.GetObjectMeta.Name
    match host with
    | Val.str dHost =>
      let fqdn := FormatHostnameForPrefixSearch dHost dr.GetObjectMeta.Namespace
        dr.GetObjectMeta.ClusterName
      if enablesNonLocalmTLS dr fqdn then st
      else
        let foundSubsets := extractSubsets dr destinationRulesName
        let v1 :=
          if fqdn.Service = "*" then
            ((τ st.2).map Prod.snd).foldl
              (fun vals h => checkCollisions σ vals destinationRulesName foundSubsets h) st.1
          else st.1
        let v2 :=
          match assocGet st.2 "*" with
          | some previous => checkCollisions σ v1 destinationRulesName foundSubsets previous
          | none => v1
        let v3 :=
          match assocGet st.2 fqdn.Service with
          | some previous => checkCollisions σ v2 destinationRulesName foundSubsets previous
          | none => v2
        let seen1 :=
          if (assocGet st.2 fqdn.Service).isNone then assocSet st.2 fqdn.Service []
          else st.2
        let seen2 := foundSubsets.foldl
          (fun mm s =>
            match assocGet mm fqdn.Service with
            | some inner => assocSet mm fqdn.Service (assocSet inner s.Name destinationRulesName)
            | none => mm) seen1
        (v3, seen2)
    | _ => st
  | none => st

/-- `Check`: the single left-to-right pass over the destination rules.
`σ` and `τ` fix the iteration orders of the two Go `range`-over-map
sites (see `checkCollisions` and the wildcard branch). -/
def Check (σ : SubsetOwners → SubsetOwners) (τ : SeenHostSubsets → SeenHostSubsets)
    (m : MultiMatchChecker) : IstioValidations :=
  (m.DestinationRules.foldl (checkStep σ τ) ([], [])).1

/-- `Check` with both map-iteration orders fixed to the list order of
the underlying association lists. -/
def CheckRun (m : MultiMatchChecker) : IstioValidations :=
  Check id id m

/-! Characterization layer: the key and value `addError` records for a
rule name, and boolean conditions describing exactly when one object's
processing reaches a given findings key. -/

/-- The findings key `addError` builds for a rule name. -/
def drKey (n : String) : IstioValidationKey :=
  ⟨n, DestinationRulesCheckerType⟩

/-- The canonical finding value `addError` records for a rule name. -/
def drValidation (n : String) : IstioValidation :=
  { Name := n
    ObjectType := DestinationRulesCheckerType
    Valid := true
    Checks := [Build "destinationrules.multimatch" "spec/host"] }

/-- Does recording a finding for rule `x` touch key `k`? -/
def keyFor (x : String) (k : IstioValidationKey) : Bool :=
  decide (drKey x = k)

/-- Does `addError` on the pair `[n, v]` touch key `k`? -/
def pairHit (n v : String) (k : IstioValidationKey) : Bool :=
  keyFor n k || keyFor v k

/-- The canonical finding at `k` when `b` holds, else nothing. -/
def condSome (b : Bool) (k : IstioValidationKey) : Option IstioValidation :=
  if b then some (drValidation k.Name) else none

/-- Does `checkCollisions` with iterated entry list `exIter`, current
rule `n`, subsets `fs` and existing map `ex` touch key `k`? -/
def ccCond (exIter : SubsetOwners) (n : String) (fs : List subset)
    (ex : SubsetOwners) (k : IstioValidationKey) : Bool :=
  ((isSentinelOnly fs && (exIter.map Prod.snd).any (fun v => pairHit n v k))
    || (match assocGet ex "~" with
        | some r => pairHit n r k
        | none => false))
  || (fs.any (fun s =>
        match assocGet ex s.Name with
        | some r => pairHit n r k
        | none => false))

/-- Does processing object `dr` against index `seen` touch key `k`? -/
def stepCond (σ : SubsetOwners → SubsetOwners) (τ : SeenHostSubsets → SeenHostSubsets)
    (dr : IstioObject) (seen : SeenHostSubsets) (k : IstioValidationKey) : Bool :=
  match assocGet dr.GetSpec "host" with
  | some (Val.str dHost) =>
    let fqdn := FormatHostnameForPrefixSearch dHost dr.GetObjectMeta.Namespace
      dr.GetObjectMeta.ClusterName
    if enablesNonLocalmTLS dr fqdn then false
    else
      let n := dr.GetObjectMeta.Name
      let fs := extractSubsets dr n
      ((if fqdn.Service = "*" then
          ((τ seen).map Prod.snd).any (fun h => ccCond (σ h) n fs h k)
        else false)
        || (match assocGet seen "*" with
            | some previous => ccCond (σ previous) n fs previous k
            | none => false))
      || (match assocGet seen fqdn.Service with
          | some previous => ccCond (σ previous) n fs previous k
          | none => false)
  | some _ => false
  | none => false

/-- The seen-hosts index after processing one object; it does not depend
on the findings map nor on the iteration orders. -/
def seenStep (dr : IstioObject) (seen : SeenHostSubsets) : SeenHostSubsets :=
  match assocGet dr.GetSpec "host" with
  | some (Val.str dHost) =>
    let fqdn := FormatHostnameForPrefixSearch dHost dr.GetObjectMeta.Namespace
      dr.GetObjectMeta.ClusterName
    if enablesNonLocalmTLS dr fqdn then seen
    else
      let destinationRulesName := dr.GetObjectMeta.Name
      let foundSubsets := extractSubsets dr destinationRulesName
      let seen1 :=
        if (assocGet seen fqdn.Service).isNone then assocSet seen fqdn.Service []
        else seen
      foundSubsets.foldl
        (fun mm s =>
          match assocGet mm fqdn.Service with
          | some inner => assocSet mm fqdn.Service (assocSet inner s.Name destinationRulesName)
          | none => mm) seen1
  | some _ => seen
  | none => seen

/-! Statement-side definitions used by individual claims. -/

/-- The names declared by the entries of a `subsets` slice: one name per
entry that is a map carrying a string-typed `name`. -/
def declaredSubsetNames (xs : List Val) : List String :=
  xs.filterMap (fun se =>
    match se with
    | Val.map element =>
      match assocGet element "name" with
      | some (Val.str n) => some n
      | _ => none
    | _ => none)

/-- Whether the `subsets` attribute is present and slice-typed, i.e.
whether the type assertion at the top of `extractSubsets` succeeds. -/
def subsetsIsList (dr : IstioObject) : Bool :=
  match assocGet dr.GetSpec "subsets" with
  | some (Val.list _) => true
  | _ => false

/-- Following the spec's wording (§4.2): the `trafficPolicy.tls.mode`
attribute of the object, read by nested map lookup, tolerant of a
missing or differently-typed value at every level. -/
def specTrafficPolicyTlsMode (dr : IstioObject) : Option String :=
  match assocGet dr.GetSpec "trafficPolicy" with
  | some (Val.map trafficPolicy) =>
    match assocGet trafficPolicy "tls" with
    | some (Val.map tls) =>
      match assocGet tls "mode" with
      | some (Val.str mode) => some mode
      | _ => none
    | _ => none
  | _ => none

/-- The invariant maintained by the findings map: keys are distinct, and
every entry is the canonical finding for its rule name. -/
def GoodVals (vals : IstioValidations) : Prop :=
  (vals.map Prod.fst).Nodup ∧ ∀ p ∈ vals, ∃ x, p = (drKey x, drValidation x)

/-! Concrete objects used as witnesses and counterexamples. -/

/-- A rule whose `subsets` attribute is present but an empty slice. -/
def emptySubsetListObj : IstioObject :=
  { GetObjectMeta := ⟨"dr1", "bookinfo", ""⟩
    GetSpec := [("host", Val.str "reviews"), ("subsets", Val.list [])] }

/-- A rule declaring a subset whose name is the sentinel value `"~"`. -/
def tildeSubsetObj : IstioObject :=
  { GetObjectMeta := ⟨"dr1", "bookinfo", ""⟩
    GetSpec := [("host", Val.str "reviews"),
                ("subsets", Val.list [Val.map [("name", Val.str "~")]])] }

/-- A rule with a concrete host and two declared subsets `v1`, `v2`. -/
def twoSubsetObj : IstioObject :=
  { GetObjectMeta := ⟨"dr1", "bookinfo", ""⟩
    GetSpec := [("host", Val.str "reviews"),
                ("subsets", Val.list [Val.map [("name", Val.str "v1")],
                                      Val.map [("name", Val.str "v2")]])] }

/-- A rule on the same service sharing subset `v2` with `twoSubsetObj`. -/
def sharedSubsetObj : IstioObject :=
  { GetObjectMeta := ⟨"dr2", "bookinfo", ""⟩
    GetSpec := [("host", Val.str "reviews.other"),
                ("subsets", Val.list [Val.map [("name", Val.str "v2")],
                                      Val.map [("name", Val.str "v3")]])] }

/-- A rule on the same service with subsets disjoint from `twoSubsetObj`. -/
def disjointSubsetObj : IstioObject :=
  { GetObjectMeta := ⟨"dr2", "bookinfo", ""⟩
    GetSpec := [("host", Val.str "reviews.other"),
                ("subsets", Val.list [Val.map [("name", Val.str "v3")],
                                      Val.map [("name", Val.str "v4")]])] }

/-- A wildcard-host rule declaring subset `v1`, without mTLS settings. -/
def wildcardSubsetObj : IstioObject :=
  { GetObjectMeta := ⟨"drw", "bookinfo", ""⟩
    GetSpec := [("host", Val.str "*"),
                ("subsets", Val.list [Val.map [("name", Val.str "v1")]])] }

/-- A concrete-host rule declaring subset `v1`. -/
def concreteSubsetObj : IstioObject :=
  { GetObjectMeta := ⟨"drc", "bookinfo", ""⟩
    GetSpec := [("host", Val.str "reviews"),
                ("subsets", Val.list [Val.map [("name", Val.str "v1")]])] }

/-- A rule with the concrete host `svc.ns` and `trafficPolicy.tls.mode`
set to `ISTIO_MUTUAL`, and no declared subsets. -/
def mtlsConcreteHostObj : IstioObject :=
  { GetObjectMeta := ⟨"mtls-dr", "ns", ""⟩
    GetSpec := [("host", Val.str "svc.ns"),
                ("trafficPolicy", Val.map [("tls", Val.map [("mode", Val.str "ISTIO_MUTUAL")])])] }

/-- A rule with host `svc.other` and no declared subsets. -/
def plainSvcObj : IstioObject :=
  { GetObjectMeta := ⟨"other-dr", "ns", ""⟩
    GetSpec := [("host", Val.str "svc.other")] }

/-- A wildcard-host rule with `trafficPolicy.tls.mode = ISTIO_MUTUAL`:
this one the Exemption Filter accepts. -/
def mtlsWildcardObj : IstioObject :=
  { GetObjectMeta := ⟨"mesh-mtls", "istio-system", ""⟩
    GetSpec := [("host", Val.str "*"),
                ("trafficPolicy", Val.map [("tls", Val.map [("mode", Val.str "ISTIO_MUTUAL")])])] }

/-- Three rules on service `svc`, none declaring subsets. -/
def sentinelTriple : MultiMatchChecker :=
  ⟨[{ GetObjectMeta := ⟨"dr1", "ns", ""⟩, GetSpec := [("host", Val.str "svc")] },
    { GetObjectMeta := ⟨"dr2", "ns", ""⟩, GetSpec := [("host", Val.str "svc.other")] },
    { GetObjectMeta := ⟨"dr3", "ns", ""⟩, GetSpec := [("host", Val.str "svc")] }]⟩

/-! Basic lemmas about the findings map. -/

theorem valGet_append (l₁ l₂ : IstioValidations) (k : IstioValidationKey) :
    valGet (l₁ ++ l₂) k = (valGet l₁ k).or (valGet l₂ k) := by
  induction l₁ with
  | nil => simp [valGet]
  | cons p rest ih =>
    by_cases h : p.1 = k
    · simp [valGet, h, Option.or]
    · simp [valGet, h, ih]

theorem valGet_eq_none_iff (vals : IstioValidations) (k : IstioValidationKey) :
    valGet vals k = none ↔ k ∉ vals.map Prod.fst := by
  induction vals with
  | nil => simp [valGet]
  | cons p rest ih =>
    by_cases h : p.1 = k
    · simp [valGet, ← h]
    · have h2 : ¬k = p.1 := fun hk => h hk.symm
      simp [valGet, if_neg h, ih, not_or, h2]

theorem condSome_false (k : IstioValidationKey) : condSome false k = none := rfl

theorem condSome_or (b₁ b₂ : Bool) (k : IstioValidationKey) :
    (condSome b₁ k).or (condSome b₂ k) = condSome (b₁ || b₂) k := by
  cases b₁ <;> cases b₂ <;> simp [condSome, Option.or]

theorem addError_cons (vals : IstioValidations) (x : String) (rest : List String) :
    addError vals (x :: rest) = addError (addError vals [x]) rest := rfl

theorem addError_one (vals : IstioValidations) (x : String) :
    addError vals [x] =
      if (valGet vals (drKey x)).isNone then vals ++ [(drKey x, drValidation x)]
      else vals := by
  by_cases h : (valGet vals (drKey x)).isNone
  · simp only [drKey, drValidation] at h ⊢
    simp [addError, MergeValidations, h, Option.isNone_iff_eq_none.mp h]
  · simp only [drKey, drValidation] at h ⊢
    simp [addError, MergeValidations, h]

theorem valGet_addError_one (vals : IstioValidations) (x : String) (k : IstioValidationKey) :
    valGet (addError vals [x]) k = (valGet vals k).or (condSome (keyFor x k) k) := by
  rw [addError_one]
  by_cases hk : drKey x = k
  · subst hk
    have hkf : keyFor x (drKey x) = true := by simp [keyFor]
    rw [hkf]
    by_cases h : (valGet vals (drKey x)).isNone
    · have hn : valGet vals (drKey x) = none := Option.isNone_iff_eq_none.mp h
      rw [if_pos h, valGet_append, hn]
      simp [valGet, condSome, drKey, Option.or]
    · rw [if_neg h]
      cases hv : valGet vals (drKey x) with
      | none => exact absurd (by simp [hv]) h
      | some v => simp [condSome, Option.or]
  · have hkf : keyFor x k = false := by simp [keyFor, hk]
    rw [hkf, condSome_false, Option.or_none]
    by_cases h : (valGet vals (drKey x)).isNone
    · rw [if_pos h, valGet_append]
      simp [valGet, hk]
    · rw [if_neg h]

theorem valGet_addError (names : List String) :
    ∀ (vals : IstioValidations) (k : IstioValidationKey),
      valGet (addError vals names) k
        = (valGet vals k).or (condSome (names.any fun x => keyFor x k) k) := by
  induction names with
  | nil => intro vals k; simp [addError, condSome]
  | cons x rest ih =>
    intro vals k
    rw [addError_cons, ih, valGet_addError_one, Option.or_assoc, condSome_or]
    simp

/-! Characterization of `checkCollisions` and of one `Check` iteration:
the lookup of the resulting findings map at a key is the lookup of the
incoming map, else the canonical finding when the respective condition
fires. -/

theorem valGet_pairFold (n : String) (L : List String) :
    ∀ (vals : IstioValidations) (k : IstioValidationKey),
      valGet (L.foldl (fun vals v => addError vals [n, v]) vals) k
        = (valGet vals k).or (condSome (L.any fun v => pairHit n v k) k) := by
  induction L with
  | nil => intro vals k; simp [condSome]
  | cons v rest ih =>
    intro vals k
    rw [List.foldl_cons, ih, valGet_addError, Option.or_assoc, condSome_or]
    simp [pairHit]

theorem valGet_subsetFold (n : String) (ex : SubsetOwners) (fs : List subset) :
    ∀ (vals : IstioValidations) (k : IstioValidationKey),
      valGet (fs.foldl (fun vals s =>
          match assocGet ex s.Name with
          | some ruleName => addError vals [n, ruleName]
          | none => vals) vals) k
        = (valGet vals k).or (condSome (fs.any fun s =>
            match assocGet ex s.Name with
            | some r => pairHit n r k
            | none => false) k) := by
  induction fs with
  | nil => intro vals k; simp [condSome]
  | cons s rest ih =>
    intro vals k
    rw [List.foldl_cons, ih]
    cases hs : assocGet ex s.Name with
    | none => simp [hs]
    | some r =>
      rw [valGet_addError, Option.or_assoc, condSome_or]
      simp [hs, pairHit]

theorem valGet_checkCollisions (σ : SubsetOwners → SubsetOwners) (n : String)
    (fs : List subset) (ex : SubsetOwners) (vals : IstioValidations)
    (k : IstioValidationKey) :
    valGet (checkCollisions σ vals n fs ex) k
      = (valGet vals k).or (condSome (ccCond (σ ex) n fs ex k) k) := by
  unfold checkCollisions ccCond
  cases h2 : assocGet ex "~" <;> cases hsent : isSentinelOnly fs <;>
    simp only [hsent, h2, valGet_subsetFold, valGet_addError, valGet_pairFold,
      Bool.false_eq_true, if_false, eq_self_iff_true, if_true,
      Option.or_assoc, condSome_or] <;>
    simp [pairHit, Bool.or_assoc]

theorem valGet_hostsFold (σ : SubsetOwners → SubsetOwners) (n : String)
    (fs : List subset) (H : List SubsetOwners) :
    ∀ (vals : IstioValidations) (k : IstioValidationKey),
      valGet (H.foldl (fun vals h => checkCollisions σ vals n fs h) vals) k
        = (valGet vals k).or (condSome (H.any fun h => ccCond (σ h) n fs h k) k) := by
  induction H with
  | nil => intro vals k; simp [condSome]
  | cons h rest ih =>
    intro vals k
    rw [List.foldl_cons, ih, valGet_checkCollisions, Option.or_assoc, condSome_or]
    simp

theorem checkStep_snd (σ : SubsetOwners → SubsetOwners) (τ : SeenHostSubsets → SeenHostSubsets)
    (st : IstioValidations × SeenHostSubsets) (dr : IstioObject) :
    (checkStep σ τ st dr).2 = seenStep dr st.2 := by
  cases hh : assocGet dr.GetSpec "host" with
  | none => simp [checkStep, seenStep, hh]
  | some v =>
    cases v with
    | str dHost =>
      by_cases he : enablesNonLocalmTLS dr (FormatHostnameForPrefixSearch dHost
          dr.GetObjectMeta.Namespace dr.GetObjectMeta.ClusterName) = true
      · simp [checkStep, seenStep, hh, he]
      · simp only [checkStep, seenStep, hh, he, Bool.false_eq_true, if_false]
        exact rfl
    | list l => simp [checkStep, seenStep, hh]
    | map mm => simp [checkStep, seenStep, hh]
    | other => simp [checkStep, seenStep, hh]

theorem valGet_checkStep_fst (σ : SubsetOwners → SubsetOwners)
    (τ : SeenHostSubsets → SeenHostSubsets) (st : IstioValidations × SeenHostSubsets)
    (dr : IstioObject) (k : IstioValidationKey) :
    valGet (checkStep σ τ st dr).1 k
      = (valGet st.1 k).or (condSome (stepCond σ τ dr st.2 k) k) := by
  cases hh : assocGet dr.GetSpec "host" with
  | none => simp [checkStep, stepCond, hh, condSome]
  | some v =>
    cases v with
    | str dHost =>
      by_cases he : enablesNonLocalmTLS dr (FormatHostnameForPrefixSearch dHost
          dr.GetObjectMeta.Namespace dr.GetObjectMeta.ClusterName) = true
      · simp [checkStep, stepCond, hh, he, condSome]
      · by_cases hw : (FormatHostnameForPrefixSearch dHost dr.GetObjectMeta.Namespace
            dr.GetObjectMeta.ClusterName).Service = "*" <;>
          cases hstar : assocGet st.2 "*" <;>
          cases hserv : assocGet st.2 (FormatHostnameForPrefixSearch dHost
            dr.GetObjectMeta.Namespace dr.GetObjectMeta.ClusterName).Service <;>
          simp only [checkStep, stepCond, hh, he, hw, hstar, hserv,
            Bool.false_eq_true, if_false, eq_self_iff_true, if_true,
            valGet_hostsFold, valGet_checkCollisions, Option.or_assoc, condSome_or] <;>
          simp [Bool.or_assoc, condSome_false]
    | list l => simp [checkStep, stepCond, hh, condSome]
    | map mm => simp [checkStep, stepCond, hh, condSome]
    | other => simp [checkStep, stepCond, hh, condSome]

/-! Invariance of the conditions under a permutation of the iterated
entry lists: Go map iteration order cannot change the result. -/

theorem any_of_perm {α : Type} (f : α → Bool) {l₁ l₂ : List α}
    (h : List.Perm l₁ l₂) : l₁.any f = l₂.any f := by
  induction h with
  | nil => rfl
  | cons x _ ih => simp [ih]
  | swap x y l => simp [Bool.or_left_comm]
  | trans _ _ ih₁ ih₂ => exact ih₁.trans ih₂

theorem ccCond_perm {exIter₁ exIter₂ : SubsetOwners} (h : List.Perm exIter₁ exIter₂)
    (n : String) (fs : List subset) (ex : SubsetOwners) (k : IstioValidationKey) :
    ccCond exIter₁ n fs ex k = ccCond exIter₂ n fs ex k := by
  unfold ccCond
  rw [any_of_perm _ (h.map Prod.snd)]

theorem stepCond_inv (σ : SubsetOwners → SubsetOwners) (τ : SeenHostSubsets → SeenHostSubsets)
    (hσ : ∀ l, List.Perm (σ l) l) (hτ : ∀ l, List.Perm (τ l) l)
    (dr : IstioObject) (seen : SeenHostSubsets) (k : IstioValidationKey) :
    stepCond σ τ dr seen k = stepCond id id dr seen k := by
  cases hh : assocGet dr.GetSpec "host" with
  | none => simp [stepCond, hh]
  | some v =>
    cases v with
    | str dHost =>
      by_cases he : enablesNonLocalmTLS dr (FormatHostnameForPrefixSearch dHost
          dr.GetObjectMeta.Namespace dr.GetObjectMeta.ClusterName) = true
      · simp [stepCond, hh, he]
      · have hcc : ∀ (ex : SubsetOwners),
            ccCond (σ ex) dr.GetObjectMeta.Name
              (extractSubsets dr dr.GetObjectMeta.Name) ex k
            = ccCond (id ex) dr.GetObjectMeta.Name
              (extractSubsets dr dr.GetObjectMeta.Name) ex k :=
          fun ex => ccCond_perm (hσ ex) _ _ _ _
        have hfun : (fun h => ccCond (σ h) dr.GetObjectMeta.Name
              (extractSubsets dr dr.GetObjectMeta.Name) h k)
            = (fun h => ccCond (id h) dr.GetObjectMeta.Name
              (extractSubsets dr dr.GetObjectMeta.Name) h k) := funext hcc
        cases hstar : assocGet seen "*" <;>
          cases hserv : assocGet seen (FormatHostnameForPrefixSearch dHost
            dr.GetObjectMeta.Namespace dr.GetObjectMeta.ClusterName).Service <;>
          by_cases hw : (FormatHostnameForPrefixSearch dHost dr.GetObjectMeta.Namespace
            dr.GetObjectMeta.ClusterName).Service = "*" <;>
          simp only [stepCond, hh, he, hstar, hserv, hw, hfun, id_eq,
            Bool.false_eq_true, if_false, eq_self_iff_true, if_true, hcc] <;>
          first
            | rfl
            | rw [any_of_perm _ ((hτ seen).map Prod.snd)]
    | list l => simp [stepCond, hh]
    | map mm => simp [stepCond, hh]
    | other => simp [stepCond, hh]

theorem checkStep_snd_pair (σ : SubsetOwners → SubsetOwners)
    (τ : SeenHostSubsets → SeenHostSubsets) (v : IstioValidations)
    (seen : SeenHostSubsets) (dr : IstioObject) :
    (checkStep σ τ (v, seen) dr).2 = seenStep dr seen :=
  checkStep_snd σ τ (v, seen) dr

theorem check_fold_valGet_eq (σ : SubsetOwners → SubsetOwners)
    (τ : SeenHostSubsets → SeenHostSubsets)
    (hσ : ∀ l, List.Perm (σ l) l) (hτ : ∀ l, List.Perm (τ l) l) :
    ∀ (drs : List IstioObject) (v₁ v₂ : IstioValidations) (seen : SeenHostSubsets),
      (∀ k, valGet v₁ k = valGet v₂ k) →
      ∀ k, valGet ((drs.foldl (checkStep σ τ) (v₁, seen)).1) k
          = valGet ((drs.foldl (checkStep id id) (v₂, seen)).1) k := by
  intro drs
  induction drs with
  | nil => intro v₁ v₂ seen hv k; exact hv k
  | cons dr rest ih =>
    intro v₁ v₂ seen hv k
    rw [List.foldl_cons, List.foldl_cons]
    have e1 : checkStep σ τ (v₁, seen) dr
        = ((checkStep σ τ (v₁, seen) dr).1, seenStep dr seen) := by
      rw [← checkStep_snd_pair σ τ v₁ seen dr]
    have e2 : checkStep id id (v₂, seen) dr
        = ((checkStep id id (v₂, seen) dr).1, seenStep dr seen) := by
      rw [← checkStep_snd_pair id id v₂ seen dr]
    rw [e1, e2]
    apply ih
    intro k2
    rw [valGet_checkStep_fst, valGet_checkStep_fst]
    show (valGet v₁ k2).or _ = (valGet v₂ k2).or _
    rw [hv k2, stepCond_inv σ τ hσ hτ dr seen k2]

/-! Preservation of the findings-map invariant. -/

theorem GoodVals_nil : GoodVals [] :=
  ⟨List.nodup_nil, by simp⟩

theorem GoodVals_addError (names : List String) :
    ∀ (vals : IstioValidations), GoodVals vals → GoodVals (addError vals names) := by
  induction names with
  | nil => intro vals h; exact h
  | cons x rest ih =>
    intro vals h
    rw [addError_cons]
    apply ih
    rw [addError_one]
    by_cases hn : (valGet vals (drKey x)).isNone
    · rw [if_pos hn]
      obtain ⟨hnd, hshape⟩ := h
      have hmem : drKey x ∉ vals.map Prod.fst :=
        (valGet_eq_none_iff vals (drKey x)).mp (Option.isNone_iff_eq_none.mp hn)
      constructor
      · simp only [List.map_append, List.map_cons, List.map_nil]
        refine List.Nodup.append hnd (List.nodup_singleton _) ?_
        intro a ha hb
        rw [List.mem_singleton] at hb
        exact hmem (hb ▸ ha)
      · intro p hp
        rcases List.mem_append.mp hp with h1 | h1
        · exact hshape p h1
        · rw [List.mem_singleton] at h1
          exact ⟨x, h1⟩
    · rw [if_neg hn]
      exact h

theorem GoodVals_foldl {β : Type} (f : IstioValidations → β → IstioValidations)
    (hf : ∀ vals b, GoodVals vals → GoodVals (f vals b)) :
    ∀ (l : List β) (vals : IstioValidations), GoodVals vals → GoodVals (l.foldl f vals) := by
  intro l
  induction l with
  | nil => intro vals h; exact h
  | cons b rest ih =>
    intro vals h
    rw [List.foldl_cons]
    exact ih _ (hf vals b h)

theorem GoodVals_checkCollisions (σ : SubsetOwners → SubsetOwners) (n : String)
    (fs : List subset) (ex : SubsetOwners) (vals : IstioValidations)
    (h : GoodVals vals) : GoodVals (checkCollisions σ vals n fs ex) := by
  unfold checkCollisions
  have hv1 : GoodVals (if isSentinelOnly fs then
      ((σ ex).map Prod.snd).foldl (fun vals v => addError vals [n, v]) vals
    else vals) := by
    split
    · exact GoodVals_foldl _ (fun v b hb => GoodVals_addError _ _ hb) _ _ h
    · exact h
  have hv2 : GoodVals (match assocGet ex "~" with
      | some ruleName =>
        addError (if isSentinelOnly fs then
          ((σ ex).map Prod.snd).foldl (fun vals v => addError vals [n, v]) vals
        else vals) [n, ruleName]
      | none =>
        if isSentinelOnly fs then
          ((σ ex).map Prod.snd).foldl (fun vals v => addError vals [n, v]) vals
        else vals) := by
    cases h2 : assocGet ex "~" with
    | none => exact hv1
    | some r => exact GoodVals_addError _ _ hv1
  refine GoodVals_foldl _ ?_ _ _ hv2
  intro v s hv
  cases hs : assocGet ex s.Name with
  | none => simpa [hs] using hv
  | some r =>
    simp only [hs]
    exact GoodVals_addError _ _ hv

theorem GoodVals_checkStep (σ : SubsetOwners → SubsetOwners)
    (τ : SeenHostSubsets → SeenHostSubsets) (st : IstioValidations × SeenHostSubsets)
    (dr : IstioObject) (h : GoodVals st.1) : GoodVals (checkStep σ τ st dr).1 := by
  cases hh : assocGet dr.GetSpec "host" with
  | none => simpa [checkStep, hh] using h
  | some v =>
    cases v with
    | str dHost =>
      by_cases he : enablesNonLocalmTLS dr (FormatHostnameForPrefixSearch dHost
          dr.GetObjectMeta.Namespace dr.GetObjectMeta.ClusterName) = true
      · simpa [checkStep, hh, he] using h
      · simp only [checkStep, hh, he, Bool.false_eq_true, if_false]
        have hv1 : GoodVals (if (FormatHostnameForPrefixSearch dHost
            dr.GetObjectMeta.Namespace dr.GetObjectMeta.ClusterName).Service = "*" then
            ((τ st.2).map Prod.snd).foldl
              (fun vals h => checkCollisions σ vals dr.GetObjectMeta.Name
                (extractSubsets dr dr.GetObjectMeta.Name) h) st.1
          else st.1) := by
          split
          · exact GoodVals_foldl _
              (fun v b hb => GoodVals_checkCollisions _ _ _ _ _ hb) _ _ h
          · exact h
        have hv2 : GoodVals (match assocGet st.2 "*" with
            | some previous =>
              checkCollisions σ (if (FormatHostnameForPrefixSearch dHost
                  dr.GetObjectMeta.Namespace dr.GetObjectMeta.ClusterName).Service = "*" then
                  ((τ st.2).map Prod.snd).foldl
                    (fun vals h => checkCollisions σ vals dr.GetObjectMeta.Name
                      (extractSubsets dr dr.GetObjectMeta.Name) h) st.1
                else st.1) dr.GetObjectMeta.Name
                (extractSubsets dr dr.GetObjectMeta.Name) previous
            | none =>
              if (FormatHostnameForPrefixSearch dHost
                  dr.GetObjectMeta.Namespace dr.GetObjectMeta.ClusterName).Service = "*" then
                ((τ st.2).map Prod.snd).foldl
                  (fun vals h => checkCollisions σ vals dr.GetObjectMeta.Name
                    (extractSubsets dr dr.GetObjectMeta.Name) h) st.1
              else st.1) := by
          cases hstar : assocGet st.2 "*" with
          | none => exact hv1
          | some prev => exact GoodVals_checkCollisions _ _ _ _ _ hv1
        cases hserv : assocGet st.2 (FormatHostnameForPrefixSearch dHost
            dr.GetObjectMeta.Namespace dr.GetObjectMeta.ClusterName).Service with
        | none => simpa [hserv] using hv2
        | some prev =>
          simp only [hserv]
          exact GoodVals_checkCollisions _ _ _ _ _ hv2
    | list l => simpa [checkStep, hh] using h
    | map mm => simpa [checkStep, hh] using h
    | other => simpa [checkStep, hh] using h

theorem GoodVals_check_fold (σ : SubsetOwners → SubsetOwners)
    (τ : SeenHostSubsets → SeenHostSubsets) :
    ∀ (drs : List IstioObject) (st : IstioValidations × SeenHostSubsets),
      GoodVals st.1 → GoodVals ((drs.foldl (checkStep σ τ) st).1) := by
  intro drs
  induction drs with
  | nil => intro st h; exact h
  | cons dr rest ih =>
    intro st h
    rw [List.foldl_cons]
    exact ih _ (GoodVals_checkStep σ τ st dr h)

theorem GoodVals_Check (σ : SubsetOwners → SubsetOwners)
    (τ : SeenHostSubsets → SeenHostSubsets) (m : MultiMatchChecker) :
    GoodVals (Check σ τ m) :=
  GoodVals_check_fold σ τ m.DestinationRules ([], []) GoodVals_nil

/-! Helper lemmas for the individual claims. -/

theorem assocGet_assocSet_self {α : Type} (m : List (String × α)) (key : String) (v : α) :
    assocGet (assocSet m key v) key = some v := by
  induction m with
  | nil => simp [assocGet, assocSet]
  | cons p rest ih =>
    by_cases h : p.1 = key
    · simp [assocGet, assocSet, h]
    · simp [assocGet, assocSet, h, ih]

theorem assocGet_assocSet_ne {α : Type} (m : List (String × α)) (key key2 : String) (v : α)
    (h : key ≠ key2) : assocGet (assocSet m key v) key2 = assocGet m key2 := by
  induction m with
  | nil => simp [assocGet, assocSet, h]
  | cons p rest ih =>
    by_cases hp : p.1 = key
    · simp [assocGet, assocSet, hp, h, ih]
    · simp only [assocSet, if_neg hp]
      by_cases hp2 : p.1 = key2
      · simp [assocGet, hp2]
      · simp [assocGet, hp2, ih]

theorem assocGet_mem_values {α : Type} (m : List (String × α)) (key : String) (v : α)
    (h : assocGet m key = some v) : v ∈ m.map Prod.snd := by
  induction m with
  | nil => simp [assocGet] at h
  | cons p rest ih =>
    by_cases hp : p.1 = key
    · simp only [assocGet, if_pos hp, Option.some.injEq] at h
      simp [h]
    · simp only [assocGet, if_neg hp] at h
      simp [ih h]

theorem filterMap_subsets (n : String) (xs : List Val) :
    xs.filterMap (fun se =>
      match se with
      | Val.map element =>
        match assocGet element "name" with
        | some (Val.str nm) => some (⟨nm, n⟩ : subset)
        | _ => none
      | _ => none)
    = (declaredSubsetNames xs).map (fun m => (⟨m, n⟩ : subset)) := by
  unfold declaredSubsetNames
  induction xs with
  | nil => rfl
  | cons se rest ih =>
    cases se with
    | str s => simpa using ih
    | list l => simpa using ih
    | other => simpa using ih
    | map element =>
      cases he : assocGet element "name" with
      | none => simp [List.filterMap_cons, he, ih]
      | some v =>
        cases v with
        | str nm => simp [List.filterMap_cons, he, ih]
        | list l => simp [List.filterMap_cons, he, ih]
        | map m2 => simp [List.filterMap_cons, he, ih]
        | other => simp [List.filterMap_cons, he, ih]

theorem extractSubsets_list_eq (dr : IstioObject) (n : String) (xs : List Val)
    (h : assocGet dr.GetSpec "subsets" = some (Val.list xs)) :
    extractSubsets dr n = (declaredSubsetNames xs).map (fun m => (⟨m, n⟩ : subset)) := by
  unfold extractSubsets
  rw [h]
  exact filterMap_subsets n xs

theorem extractSubsets_sentinel_eq (dr : IstioObject) (n : String)
    (h : subsetsIsList dr = false) :
    extractSubsets dr n = [⟨"~", n⟩] := by
  cases hs : assocGet dr.GetSpec "subsets" with
  | none => simp [extractSubsets, hs]
  | some v =>
    cases v with
    | list xs =>
      unfold subsetsIsList at h
      rw [hs] at h
      simp at h
    | str s => simp [extractSubsets, hs]
    | map mm => simp [extractSubsets, hs]
    | other => simp [extractSubsets, hs]

theorem enables_false_of_service_ne (dr : IstioObject) (fdqn : Host)
    (h : fdqn.Service ≠ "*") : enablesNonLocalmTLS dr fdqn = false := by
  unfold enablesNonLocalmTLS
  rw [if_pos h]

theorem pairHit_left (n v : String) : pairHit n v (drKey n) = true := by
  simp [pairHit, keyFor]

theorem pairHit_right (n v : String) : pairHit n v (drKey v) = true := by
  simp [pairHit, keyFor, Bool.or_true]

theorem isSome_or_condSome_true (o : Option IstioValidation) (k : IstioValidationKey) :
    (o.or (condSome true k)).isSome = true := by
  cases o <;> simp [condSome, Option.or]

theorem stepCond_id_nil (dr : IstioObject) (k : IstioValidationKey) :
    stepCond id id dr [] k = false := by
  cases hh : assocGet dr.GetSpec "host" with
  | none => simp [stepCond, hh]
  | some v =>
    cases v with
    | str dHost =>
      by_cases he : enablesNonLocalmTLS dr (FormatHostnameForPrefixSearch dHost
          dr.GetObjectMeta.Namespace dr.GetObjectMeta.ClusterName) = true
      · simp [stepCond, hh, he]
      · simp [stepCond, hh, he, assocGet]
    | list l => simp [stepCond, hh]
    | map mm => simp [stepCond, hh]
    | other => simp [stepCond, hh]

theorem valGet_CheckRun_two (o1 o2 : IstioObject) (k : IstioValidationKey) :
    valGet (CheckRun ⟨[o1, o2]⟩) k
      = condSome (stepCond id id o2 (seenStep o1 []) k) k := by
  show valGet (([o1, o2].foldl (checkStep id id) ([], [])).1) k = _
  rw [List.foldl_cons, List.foldl_cons, List.foldl_nil, valGet_checkStep_fst,
    checkStep_snd, valGet_checkStep_fst]
  simp [valGet, stepCond_id_nil, condSome_false, Option.or]

theorem ccCond_subset_hit (exIter : SubsetOwners) (n : String) (fs : List subset)
    (ex : SubsetOwners) (k : IstioValidationKey) (s : subset) (hs : s ∈ fs) (r : String)
    (hr : assocGet ex s.Name = some r) (hk : pairHit n r k = true) :
    ccCond exIter n fs ex k = true := by
  unfold ccCond
  have hany : (fs.any fun t =>
      match assocGet ex t.Name with
      | some r => pairHit n r k
      | none => false) = true := by
    rw [List.any_eq_true]
    exact ⟨s, hs, by rw [hr]; exact hk⟩
  rw [hany, Bool.or_true]

theorem stepCond_service_hit (σ : SubsetOwners → SubsetOwners)
    (τ : SeenHostSubsets → SeenHostSubsets) (dr : IstioObject) (seen : SeenHostSubsets)
    (k : IstioValidationKey) (dHost : String)
    (hh : assocGet dr.GetSpec "host" = some (Val.str dHost))
    (he : enablesNonLocalmTLS dr (FormatHostnameForPrefixSearch dHost
      dr.GetObjectMeta.Namespace dr.GetObjectMeta.ClusterName) = false)
    (ex : SubsetOwners)
    (hex : assocGet seen (FormatHostnameForPrefixSearch dHost
      dr.GetObjectMeta.Namespace dr.GetObjectMeta.ClusterName).Service = some ex)
    (hcc : ccCond (σ ex) dr.GetObjectMeta.Name
      (extractSubsets dr dr.GetObjectMeta.Name) ex k = true) :
    stepCond σ τ dr seen k = true := by
  simp only [stepCond, hh, he, Bool.false_eq_true, if_false, hex, hcc, Bool.or_true]

theorem stepCond_star_hit (σ : SubsetOwners → SubsetOwners)
    (τ : SeenHostSubsets → SeenHostSubsets) (dr : IstioObject) (seen : SeenHostSubsets)
    (k : IstioValidationKey) (dHost : String)
    (hh : assocGet dr.GetSpec "host" = some (Val.str dHost))
    (he : enablesNonLocalmTLS dr (FormatHostnameForPrefixSearch dHost
      dr.GetObjectMeta.Namespace dr.GetObjectMeta.ClusterName) = false)
    (ex : SubsetOwners) (hstar : assocGet seen "*" = some ex)
    (hcc : ccCond (σ ex) dr.GetObjectMeta.Name
      (extractSubsets dr dr.GetObjectMeta.Name) ex k = true) :
    stepCond σ τ dr seen k = true := by
  simp only [stepCond, hh, he, Bool.false_eq_true, if_false, hstar, hcc,
    Bool.or_true, Bool.true_or]

theorem stepCond_wildcard_hit (σ : SubsetOwners → SubsetOwners)
    (τ : SeenHostSubsets → SeenHostSubsets) (dr : IstioObject) (seen : SeenHostSubsets)
    (k : IstioValidationKey) (dHost : String)
    (hh : assocGet dr.GetSpec "host" = some (Val.str dHost))
    (he : enablesNonLocalmTLS dr (FormatHostnameForPrefixSearch dHost
      dr.GetObjectMeta.Namespace dr.GetObjectMeta.ClusterName) = false)
    (hw : (FormatHostnameForPrefixSearch dHost dr.GetObjectMeta.Namespace
      dr.GetObjectMeta.ClusterName).Service = "*")
    (hany : (((τ seen).map Prod.snd).any (fun h => ccCond (σ h) dr.GetObjectMeta.Name
      (extractSubsets dr dr.GetObjectMeta.Name) h k)) = true) :
    stepCond σ τ dr seen k = true := by
  simp only [stepCond, hh, he, Bool.false_eq_true, if_false, hw,
    eq_self_iff_true, if_true, hany, Bool.true_or]

theorem stepCond_id_eq_false (dr : IstioObject) (seen : SeenHostSubsets)
    (k : IstioValidationKey) (dHost : String)
    (hh : assocGet dr.GetSpec "host" = some (Val.str dHost))
    (he : enablesNonLocalmTLS dr (FormatHostnameForPrefixSearch dHost
      dr.GetObjectMeta.Namespace dr.GetObjectMeta.ClusterName) = false)
    (hall : ∀ ex ∈ seen.map Prod.snd, ccCond ex dr.GetObjectMeta.Name
      (extractSubsets dr dr.GetObjectMeta.Name) ex k = false) :
    stepCond id id dr seen k = false := by
  simp only [stepCond, hh, he, Bool.false_eq_true, if_false, id_eq]
  have h1 : (if (FormatHostnameForPrefixSearch dHost dr.GetObjectMeta.Namespace
      dr.GetObjectMeta.ClusterName).Service = "*" then
      ((seen.map Prod.snd).any (fun h => ccCond h dr.GetObjectMeta.Name
        (extractSubsets dr dr.GetObjectMeta.Name) h k))
    else false) = false := by
    split
    · rw [List.any_eq_false]
      intro ex hex
      simp [hall ex hex]
    · rfl
  rw [h1]
  have h2 : (match assocGet seen "*" with
      | some previous => ccCond previous dr.GetObjectMeta.Name
          (extractSubsets dr dr.GetObjectMeta.Name) previous k
      | none => false) = false := by
    cases hstar : assocGet seen "*" with
    | none => rfl
    | some prev => exact hall prev (assocGet_mem_values seen "*" prev hstar)
  rw [h2]
  have h3 : (match assocGet seen (FormatHostnameForPrefixSearch dHost
      dr.GetObjectMeta.Namespace dr.GetObjectMeta.ClusterName).Service with
      | some previous => ccCond previous dr.GetObjectMeta.Name
          (extractSubsets dr dr.GetObjectMeta.Name) previous k
      | none => false) = false := by
    cases hserv : assocGet seen (FormatHostnameForPrefixSearch dHost
        dr.GetObjectMeta.Namespace dr.GetObjectMeta.ClusterName).Service with
    | none => rfl
    | some prev => exact hall prev (assocGet_mem_values seen _ prev hserv)
  rw [h3]
  rfl

theorem checkStep_exempt (σ : SubsetOwners → SubsetOwners)
    (τ : SeenHostSubsets → SeenHostSubsets) (st : IstioValidations × SeenHostSubsets)
    (dr : IstioObject) (dHost : String)
    (h1 : assocGet dr.GetSpec "host" = some (Val.str dHost))
    (h2 : enablesNonLocalmTLS dr (FormatHostnameForPrefixSearch dHost
      dr.GetObjectMeta.Namespace dr.GetObjectMeta.ClusterName) = true) :
    checkStep σ τ st dr = st := by
  simp [checkStep, h1, h2]

/-! Claim theorems. -/

/-- C1, counterexample: the claim says an empty declared subset list
yields exactly one sentinel Subset, but `extractSubsets` on an object
whose `subsets` attribute is an empty slice returns no Subsets at all. -/
theorem extractSubsets_empty_list_counterexample :
    extractSubsets emptySubsetListObj "dr1" = [] ∧
    extractSubsets emptySubsetListObj "dr1" ≠ [{ Name := "~", RuleName := "dr1" }] := by
  constructor
  · decide
  · decide

/-- C1, amended: `extractSubsets` returns the single sentinel Subset
exactly when the `subsets` attribute is absent or not slice-typed; when
it is a slice (even empty or with no validly-named entry), it returns
one Subset per entry with a string-typed name, in list order, each owned
by the given rule name — possibly zero Subsets. -/
theorem extractSubsets_characterization (dr : IstioObject) (n : String) :
    (subsetsIsList dr = false → extractSubsets dr n = [⟨"~", n⟩]) ∧
    (∀ xs, assocGet dr.GetSpec "subsets" = some (Val.list xs) →
      extractSubsets dr n = (declaredSubsetNames xs).map (fun m => (⟨m, n⟩ : subset))) :=
  ⟨fun h => extractSubsets_sentinel_eq dr n h,
   fun xs h => extractSubsets_list_eq dr n xs h⟩

/-- Witness for C1's amended theorem at concrete inputs. -/
theorem extractSubsets_characterization_witness :
    extractSubsets twoSubsetObj "dr1"
        = (declaredSubsetNames [Val.map [("name", Val.str "v1")],
            Val.map [("name", Val.str "v2")]]).map (fun m => (⟨m, "dr1"⟩ : subset)) ∧
    extractSubsets plainSvcObj "other-dr" = [⟨"~", "other-dr"⟩] :=
  ⟨(extractSubsets_characterization twoSubsetObj "dr1").2 _ rfl,
   (extractSubsets_characterization plainSvcObj "other-dr").1 rfl⟩

/-- C2, counterexample: the Subset Extractor does not reserve the
sentinel name — a user-declared subset entry named `"~"` is extracted
as a Subset bearing the sentinel name. -/
theorem extractSubsets_tilde_counterexample :
    assocGet tildeSubsetObj.GetSpec "subsets"
        = some (Val.list [Val.map [("name", Val.str "~")]]) ∧
    extractSubsets tildeSubsetObj "dr1" = [⟨"~", "dr1"⟩] :=
  ⟨rfl, by decide⟩

/-- C2, amended: the extractor itself does not enforce the reservation;
only provided that no declared entry's name equals `"~"` does no Subset
extracted from a declared subset list bear the sentinel name. -/
theorem sentinel_reserved_unless_declared (dr : IstioObject) (n : String) (xs : List Val)
    (hl : assocGet dr.GetSpec "subsets" = some (Val.list xs))
    (hnames : ∀ m ∈ declaredSubsetNames xs, m ≠ "~") :
    ∀ s ∈ extractSubsets dr n, s.Name ≠ "~" := by
  rw [extractSubsets_list_eq dr n xs hl]
  intro s hs
  rcases List.mem_map.mp hs with ⟨m, hm, rfl⟩
  exact hnames m hm

/-- Witness for C2's amended theorem at a concrete input. -/
theorem sentinel_reserved_unless_declared_witness :
    subset.Name ⟨"v1", "dr1"⟩ ≠ "~" :=
  sentinel_reserved_unless_declared twoSubsetObj "dr1"
    [Val.map [("name", Val.str "v1")], Val.map [("name", Val.str "v2")]] rfl
    (by decide) ⟨"v1", "dr1"⟩ (by decide)

/-- C5: the Exemption Filter returns true exactly when the normalized
host service is `"*"` and the object's `trafficPolicy.tls.mode`
attribute is the string `ISTIO_MUTUAL`; any absent or differently-typed
level of the chain yields false, and the filter is total. -/
theorem enablesNonLocalmTLS_iff (dr : IstioObject) (fqdn : Host) :
    enablesNonLocalmTLS dr fqdn = true ↔
      fqdn.Service = "*" ∧ specTrafficPolicyTlsMode dr = some "ISTIO_MUTUAL" := by
  unfold enablesNonLocalmTLS specTrafficPolicyTlsMode
  by_cases hs : fqdn.Service = "*"
  · rw [if_neg (not_not_intro hs)]
    simp only [hs, true_and]
    cases h1 : assocGet dr.GetSpec "trafficPolicy" with
    | none => simp [h1]
    | some v =>
      cases v with
      | map tp =>
        simp only [h1]
        cases h2 : assocGet tp "tls" with
        | none => simp [h2]
        | some v2 =>
          cases v2 with
          | map tls =>
            simp only [h2]
            cases h3 : assocGet tls "mode" with
            | none => simp [h3]
            | some v3 =>
              cases v3 with
              | str mode => simp [h3]
              | list l => simp [h3]
              | map m2 => simp [h3]
              | other => simp [h3]
          | str s2 => simp [h2]
          | list l2 => simp [h2]
          | other => simp [h2]
      | str s1 => simp [h1]
      | list l1 => simp [h1]
      | other => simp [h1]
  · rw [if_pos hs]
    simp [hs]

/-- C6: per invocation, each object identity is recorded at most once
(the keys of the findings map are distinct, for every map iteration
order), and for three objects all carrying the sentinel subset on the
same service each of the three appears in the output exactly once. -/
theorem findings_once_per_identity :
    (∀ (σ : SubsetOwners → SubsetOwners) (τ : SeenHostSubsets → SeenHostSubsets)
        (m : MultiMatchChecker), ((Check σ τ m).map Prod.fst).Nodup) ∧
    ((CheckRun sentinelTriple).map Prod.fst).count (drKey "dr1") = 1 ∧
    ((CheckRun sentinelTriple).map Prod.fst).count (drKey "dr2") = 1 ∧
    ((CheckRun sentinelTriple).map Prod.fst).count (drKey "dr3") = 1 :=
  ⟨fun σ τ m => (GoodVals_Check σ τ m).1, by decide, by decide, by decide⟩

/-- C7, counterexample: an object with host `svc.ns` and
`trafficPolicy.tls.mode = ISTIO_MUTUAL` is not exempt (its service is
not `"*"`), is itself reported once a later rule on the same service
arrives, and its removal changes the other rule's findings. -/
theorem mtls_concrete_host_counterexample :
    valGet (CheckRun ⟨[mtlsConcreteHostObj, plainSvcObj]⟩) (drKey "mtls-dr")
        = some (drValidation "mtls-dr") ∧
    valGet (CheckRun ⟨[mtlsConcreteHostObj, plainSvcObj]⟩) (drKey "other-dr")
        = some (drValidation "other-dr") ∧
    valGet (CheckRun ⟨[plainSvcObj]⟩) (drKey "other-dr") = none := by
  refine ⟨?_, ?_, ?_⟩ <;> decide

/-- C7, amended: an object the Exemption Filter actually accepts (which
requires a wildcard-service host together with
`trafficPolicy.tls.mode = ISTIO_MUTUAL`) is never entered into the
index and never checked: removing it from any position of the input
leaves the entire output unchanged. -/
theorem exempt_object_frame (dr : IstioObject) (dHost : String)
    (h1 : assocGet dr.GetSpec "host" = some (Val.str dHost))
    (h2 : enablesNonLocalmTLS dr (FormatHostnameForPrefixSearch dHost
      dr.GetObjectMeta.Namespace dr.GetObjectMeta.ClusterName) = true)
    (pre post : List IstioObject) :
    CheckRun ⟨pre ++ dr :: post⟩ = CheckRun ⟨pre ++ post⟩ := by
  show ((pre ++ dr :: post).foldl (checkStep id id) ([], [])).1
      = ((pre ++ post).foldl (checkStep id id) ([], [])).1
  rw [List.foldl_append, List.foldl_append, List.foldl_cons,
    checkStep_exempt id id _ dr dHost h1 h2]

/-- Witness for C7's amended theorem at concrete inputs. -/
theorem exempt_object_frame_witness :
    CheckRun ⟨[mtlsWildcardObj, plainSvcObj]⟩ = CheckRun ⟨[plainSvcObj]⟩ :=
  exempt_object_frame mtlsWildcardObj "*" rfl (by decide) [] [plainSvcObj]

/-- C9: the checker is deterministic in the face of Go's unspecified
map iteration order — for any reorderings `σ`, `τ` of the two iterated
maps, the findings of `Check σ τ` agree pointwise with the findings of
the canonical run. -/
theorem check_deterministic_under_map_order (σ : SubsetOwners → SubsetOwners)
    (τ : SeenHostSubsets → SeenHostSubsets)
    (hσ : ∀ l, List.Perm (σ l) l) (hτ : ∀ l, List.Perm (τ l) l)
    (m : MultiMatchChecker) (k : IstioValidationKey) :
    valGet (Check σ τ m) k = valGet (CheckRun m) k :=
  check_fold_valGet_eq σ τ hσ hτ m.DestinationRules [] [] [] (fun _ => rfl) k

/-- Witness for C9 with both iteration orders reversed. -/
theorem check_deterministic_under_map_order_witness :
    valGet (Check List.reverse List.reverse sentinelTriple) (drKey "dr1")
      = valGet (CheckRun sentinelTriple) (drKey "dr1") :=
  check_deterministic_under_map_order List.reverse List.reverse
    (fun l => List.reverse_perm l) (fun l => List.reverse_perm l)
    sentinelTriple (drKey "dr1")

/-- C10: every value stored in the findings map has `Valid = true`,
object type `destinationrule`, and exactly the one check built from
code `destinationrules.multimatch` and path `spec/host`. -/
theorem finding_values_canonical (σ : SubsetOwners → SubsetOwners)
    (τ : SeenHostSubsets → SeenHostSubsets) (m : MultiMatchChecker)
    (p : IstioValidationKey × IstioValidation) (hp : p ∈ Check σ τ m) :
    p.2.Valid = true ∧ p.2.ObjectType = "destinationrule" ∧
    p.2.Checks = [Build "destinationrules.multimatch" "spec/host"] := by
  rcases (GoodVals_Check σ τ m).2 p hp with ⟨x, rfl⟩
  exact ⟨rfl, rfl, rfl⟩

/-- Witness for C10 at a concrete finding of a concrete run. -/
theorem finding_values_canonical_witness :
    (drValidation "dr1").Valid = true ∧
    (drValidation "dr1").ObjectType = "destinationrule" ∧
    (drValidation "dr1").Checks = [Build "destinationrules.multimatch" "spec/host"] :=
  finding_values_canonical id id sentinelTriple (drKey "dr1", drValidation "dr1")
    (by decide)

theorem joinDots_nil : joinDots [] = "" := rfl

/-- C8: the Host Normalizer satisfies the spec's two concrete equations
and, on every input, yields the first dot-segment as the service, the
second segment (when present and non-empty) as the namespace, the
remaining segments rejoined with `.` as the cluster, defaulting an
absent or empty namespace/cluster from the owning object's metadata;
it is total — no error path. -/
theorem formatHostname_characterization :
    FormatHostnameForPrefixSearch "reviews.bookinfo.svc.cluster.local" "default" ""
        = ⟨"reviews", "bookinfo", "svc.cluster.local"⟩ ∧
    FormatHostnameForPrefixSearch "reviews" "bookinfo" "east"
        = ⟨"reviews", "bookinfo", "east"⟩ ∧
    ∀ (hostName ns cluster : String),
      FormatHostnameForPrefixSearch hostName ns cluster =
        { Service := (splitHost hostName).headD ""
          Namespace := if (splitHost hostName).tail.headD "" = ""
            then ns else (splitHost hostName).tail.headD ""
          Cluster := if joinDots ((splitHost hostName).tail.tail) = ""
            then cluster else joinDots ((splitHost hostName).tail.tail) } := by
  refine ⟨by decide, by decide, ?_⟩
  intro hostName ns cluster
  simp only [FormatHostnameForPrefixSearch]
  generalize splitHost hostName = ps
  match ps with
  | [] =>
    have h1 : ¬(1 : Nat) < ([] : List String).length := by decide
    rw [if_neg h1]
    simp [joinDots_nil, List.headD]
  | [a] =>
    have h1 : ¬(1 : Nat) < ([a] : List String).length := by
      simp only [List.length_cons, List.length_nil]
      omega
    rw [if_neg h1]
    simp [joinDots_nil, List.headD]
  | [a, b] =>
    have h1 : (1 : Nat) < ([a, b] : List String).length := by
      simp only [List.length_cons, List.length_nil]
      omega
    have h2 : ¬(2 : Nat) < ([a, b] : List String).length := by
      simp only [List.length_cons, List.length_nil]
      omega
    rw [if_pos h1, if_neg h2]
    have hgd : ([a, b] : List String).getD 1 "" = b := rfl
    by_cases hb : b = "" <;> simp [hb, hgd, joinDots_nil, List.headD]
  | a :: b :: c :: t =>
    have h1 : (1 : Nat) < (a :: b :: c :: t).length := by
      simp only [List.length_cons]
      omega
    have h2 : (2 : Nat) < (a :: b :: c :: t).length := by
      simp only [List.length_cons]
      omega
    rw [if_pos h1, if_pos h2]
    have hgd : (a :: b :: c :: t).getD 1 "" = b := rfl
    have hdrop : List.drop 2 (a :: b :: c :: t) = c :: t := rfl
    by_cases hb : b = "" <;> by_cases hc : joinDots (c :: t) = "" <;>
      simp [hb, hc, hgd, hdrop, List.headD]

/-- C3: for two objects whose hosts normalize to the same service,
neither exempt, the earlier declaring subsets `{a, b}` and the later
`{b, c}`, both objects are flagged; if the later instead declares
`{c, d}` disjoint from `{a, b}` with no sentinel name on either side,
neither object is flagged. -/
theorem shared_subset_collision :
    (∀ (o1 o2 : IstioObject) (h1 h2 s a b c : String),
      assocGet o1.GetSpec "host" = some (Val.str h1) →
      assocGet o2.GetSpec "host" = some (Val.str h2) →
      (FormatHostnameForPrefixSearch h1 o1.GetObjectMeta.Namespace
        o1.GetObjectMeta.ClusterName).Service = s →
      (FormatHostnameForPrefixSearch h2 o2.GetObjectMeta.Namespace
        o2.GetObjectMeta.ClusterName).Service = s →
      enablesNonLocalmTLS o1 (FormatHostnameForPrefixSearch h1
        o1.GetObjectMeta.Namespace o1.GetObjectMeta.ClusterName) = false →
      enablesNonLocalmTLS o2 (FormatHostnameForPrefixSearch h2
        o2.GetObjectMeta.Namespace o2.GetObjectMeta.ClusterName) = false →
      extractSubsets o1 o1.GetObjectMeta.Name
          = [⟨a, o1.GetObjectMeta.Name⟩, ⟨b, o1.GetObjectMeta.Name⟩] →
      extractSubsets o2 o2.GetObjectMeta.Name
          = [⟨b, o2.GetObjectMeta.Name⟩, ⟨c, o2.GetObjectMeta.Name⟩] →
      (valGet (CheckRun ⟨[o1, o2]⟩) (drKey o1.GetObjectMeta.Name)).isSome = true ∧
      (valGet (CheckRun ⟨[o1, o2]⟩) (drKey o2.GetObjectMeta.Name)).isSome = true) ∧
    (∀ (o1 o2 : IstioObject) (h1 h2 s a b c d : String),
      assocGet o1.GetSpec "host" = some (Val.str h1) →
      assocGet o2.GetSpec "host" = some (Val.str h2) →
      (FormatHostnameForPrefixSearch h1 o1.GetObjectMeta.Namespace
        o1.GetObjectMeta.ClusterName).Service = s →
      (FormatHostnameForPrefixSearch h2 o2.GetObjectMeta.Namespace
        o2.GetObjectMeta.ClusterName).Service = s →
      enablesNonLocalmTLS o1 (FormatHostnameForPrefixSearch h1
        o1.GetObjectMeta.Namespace o1.GetObjectMeta.ClusterName) = false →
      enablesNonLocalmTLS o2 (FormatHostnameForPrefixSearch h2
        o2.GetObjectMeta.Namespace o2.GetObjectMeta.ClusterName) = false →
      extractSubsets o1 o1.GetObjectMeta.Name
          = [⟨a, o1.GetObjectMeta.Name⟩, ⟨b, o1.GetObjectMeta.Name⟩] →
      extractSubsets o2 o2.GetObjectMeta.Name
          = [⟨c, o2.GetObjectMeta.Name⟩, ⟨d, o2.GetObjectMeta.Name⟩] →
      c ≠ a → c ≠ b → d ≠ a → d ≠ b →
      a ≠ "~" → b ≠ "~" → c ≠ "~" → d ≠ "~" →
      valGet (CheckRun ⟨[o1, o2]⟩) (drKey o1.GetObjectMeta.Name) = none ∧
      valGet (CheckRun ⟨[o1, o2]⟩) (drKey o2.GetObjectMeta.Name) = none) := by
  constructor
  · intro o1 o2 h1 h2 s a b c hh1 hh2 hs1 hs2 he1 he2 hx1 hx2
    have hseen : seenStep o1 []
        = [(s, assocSet (assocSet [] a o1.GetObjectMeta.Name) b o1.GetObjectMeta.Name)] := by
      simp only [seenStep, hh1, he1, Bool.false_eq_true, if_false, hx1, hs1]
      simp [assocGet, assocSet]
    have hserv : assocGet (seenStep o1 []) (FormatHostnameForPrefixSearch h2
        o2.GetObjectMeta.Namespace o2.GetObjectMeta.ClusterName).Service
        = some (assocSet (assocSet [] a o1.GetObjectMeta.Name) b o1.GetObjectMeta.Name) := by
      rw [hseen, hs2]
      simp [assocGet]
    have hmem : (⟨b, o2.GetObjectMeta.Name⟩ : subset)
        ∈ extractSubsets o2 o2.GetObjectMeta.Name := by
      rw [hx2]
      exact List.mem_cons_self _ _
    have hr : assocGet (assocSet (assocSet [] a o1.GetObjectMeta.Name) b
        o1.GetObjectMeta.Name) (subset.Name ⟨b, o2.GetObjectMeta.Name⟩)
        = some o1.GetObjectMeta.Name :=
      assocGet_assocSet_self _ _ _
    constructor
    · rw [valGet_CheckRun_two]
      rw [stepCond_service_hit id id o2 (seenStep o1 []) (drKey o1.GetObjectMeta.Name)
        h2 hh2 he2 _ hserv
        (ccCond_subset_hit _ _ _ _ _ ⟨b, o2.GetObjectMeta.Name⟩ hmem _ hr
          (pairHit_right _ _))]
      simp [condSome]
    · rw [valGet_CheckRun_two]
      rw [stepCond_service_hit id id o2 (seenStep o1 []) (drKey o2.GetObjectMeta.Name)
        h2 hh2 he2 _ hserv
        (ccCond_subset_hit _ _ _ _ _ ⟨b, o2.GetObjectMeta.Name⟩ hmem _ hr
          (pairHit_left _ _))]
      simp [condSome]
  · intro o1 o2 h1 h2 s a b c d hh1 hh2 hs1 hs2 he1 he2 hx1 hx2 hca hcb hda hdb
      ha hb hcx hdx
    have hseen : seenStep o1 []
        = [(s, assocSet (assocSet [] a o1.GetObjectMeta.Name) b o1.GetObjectMeta.Name)] := by
      simp only [seenStep, hh1, he1, Bool.false_eq_true, if_false, hx1, hs1]
      simp [assocGet, assocSet]
    have hnone : ∀ y, y ≠ a → y ≠ b →
        assocGet (assocSet (assocSet [] a o1.GetObjectMeta.Name) b
          o1.GetObjectMeta.Name) y = none := by
      intro y hya hyb
      rw [assocGet_assocSet_ne _ _ _ _ (fun hby => hyb hby.symm),
        assocGet_assocSet_ne _ _ _ _ (fun hay => hya hay.symm)]
      rfl
    have hccf : ∀ k, ccCond (assocSet (assocSet [] a o1.GetObjectMeta.Name) b
        o1.GetObjectMeta.Name) o2.GetObjectMeta.Name
        (extractSubsets o2 o2.GetObjectMeta.Name)
        (assocSet (assocSet [] a o1.GetObjectMeta.Name) b o1.GetObjectMeta.Name) k
        = false := by
      intro k
      unfold ccCond
      rw [hx2, hnone "~" (fun hq => ha hq.symm) (fun hq => hb hq.symm)]
      simp [isSentinelOnly, hnone c hca hcb, hnone d hda hdb]
    have hstep : ∀ k, stepCond id id o2 (seenStep o1 []) k = false := by
      intro k
      apply stepCond_id_eq_false o2 (seenStep o1 []) k h2 hh2 he2
      intro ex hex
      rw [hseen] at hex
      simp only [List.map_cons, List.map_nil, List.mem_singleton] at hex
      rw [hex]
      exact hccf k
    constructor
    · rw [valGet_CheckRun_two, hstep, condSome_false]
    · rw [valGet_CheckRun_two, hstep, condSome_false]

/-- Witness for C3's two parts at concrete rule pairs. -/
theorem shared_subset_collision_witness :
    ((valGet (CheckRun ⟨[twoSubsetObj, sharedSubsetObj]⟩) (drKey "dr1")).isSome = true ∧
     (valGet (CheckRun ⟨[twoSubsetObj, sharedSubsetObj]⟩) (drKey "dr2")).isSome = true) ∧
    (valGet (CheckRun ⟨[twoSubsetObj, disjointSubsetObj]⟩) (drKey "dr1") = none ∧
     valGet (CheckRun ⟨[twoSubsetObj, disjointSubsetObj]⟩) (drKey "dr2") = none) :=
  ⟨shared_subset_collision.1 twoSubsetObj sharedSubsetObj "reviews" "reviews.other"
      "reviews" "v1" "v2" "v3" rfl rfl (by decide) (by decide) (by decide) (by decide)
      (by decide) (by decide),
   shared_subset_collision.2 twoSubsetObj disjointSubsetObj "reviews" "reviews.other"
      "reviews" "v1" "v2" "v3" "v4" rfl rfl (by decide) (by decide) (by decide)
      (by decide) (by decide) (by decide) (by decide) (by decide) (by decide)
      (by decide) (by decide) (by decide) (by decide) (by decide)⟩

/-- C4: a wildcard-host object declaring subset `x` and a concrete-host
object declaring subset `x` produce findings for both objects in either
input order — the wildcard service key collides with every other
service key. -/
theorem wildcard_collision_either_order (ow oc : IstioObject) (hw hc s x : String)
    (hhw : assocGet ow.GetSpec "host" = some (Val.str hw))
    (hhc : assocGet oc.GetSpec "host" = some (Val.str hc))
    (hsw : (FormatHostnameForPrefixSearch hw ow.GetObjectMeta.Namespace
      ow.GetObjectMeta.ClusterName).Service = "*")
    (hsc : (FormatHostnameForPrefixSearch hc oc.GetObjectMeta.Namespace
      oc.GetObjectMeta.ClusterName).Service = s)
    (hsne : s ≠ "*")
    (hew : enablesNonLocalmTLS ow (FormatHostnameForPrefixSearch hw
      ow.GetObjectMeta.Namespace ow.GetObjectMeta.ClusterName) = false)
    (hxw : extractSubsets ow ow.GetObjectMeta.Name = [⟨x, ow.GetObjectMeta.Name⟩])
    (hxc : extractSubsets oc oc.GetObjectMeta.Name = [⟨x, oc.GetObjectMeta.Name⟩]) :
    (valGet (CheckRun ⟨[ow, oc]⟩) (drKey ow.GetObjectMeta.Name)).isSome = true ∧
    (valGet (CheckRun ⟨[ow, oc]⟩) (drKey oc.GetObjectMeta.Name)).isSome = true ∧
    (valGet (CheckRun ⟨[oc, ow]⟩) (drKey ow.GetObjectMeta.Name)).isSome = true ∧
    (valGet (CheckRun ⟨[oc, ow]⟩) (drKey oc.GetObjectMeta.Name)).isSome = true := by
  have hec : enablesNonLocalmTLS oc (FormatHostnameForPrefixSearch hc
      oc.GetObjectMeta.Namespace oc.GetObjectMeta.ClusterName) = false := by
    apply enables_false_of_service_ne
    rw [hsc]
    exact hsne
  have hseenw : seenStep ow [] = [("*", assocSet [] x ow.GetObjectMeta.Name)] := by
    simp only [seenStep, hhw, hew, Bool.false_eq_true, if_false, hxw, hsw]
    simp [assocGet, assocSet]
  have hseenc : seenStep oc [] = [(s, assocSet [] x oc.GetObjectMeta.Name)] := by
    simp only [seenStep, hhc, hec, Bool.false_eq_true, if_false, hxc, hsc]
    simp [assocGet, assocSet]
  have hstar : assocGet (seenStep ow []) "*" = some (assocSet [] x ow.GetObjectMeta.Name) := by
    rw [hseenw]
    simp [assocGet]
  have hmemc : (⟨x, oc.GetObjectMeta.Name⟩ : subset)
      ∈ extractSubsets oc oc.GetObjectMeta.Name := by
    rw [hxc]
    exact List.mem_cons_self _ _
  have hmemw : (⟨x, ow.GetObjectMeta.Name⟩ : subset)
      ∈ extractSubsets ow ow.GetObjectMeta.Name := by
    rw [hxw]
    exact List.mem_cons_self _ _
  have hrw : assocGet (assocSet [] x ow.GetObjectMeta.Name)
      (subset.Name ⟨x, oc.GetObjectMeta.Name⟩) = some ow.GetObjectMeta.Name :=
    assocGet_assocSet_self _ _ _
  have hrc : assocGet (assocSet [] x oc.GetObjectMeta.Name)
      (subset.Name ⟨x, ow.GetObjectMeta.Name⟩) = some oc.GetObjectMeta.Name :=
    assocGet_assocSet_self _ _ _
  have hanyB : ∀ k, ccCond (id (assocSet [] x oc.GetObjectMeta.Name))
      ow.GetObjectMeta.Name (extractSubsets ow ow.GetObjectMeta.Name)
      (assocSet [] x oc.GetObjectMeta.Name) k = true →
      (((id (seenStep oc [])).map Prod.snd).any
        (fun h => ccCond (id h) ow.GetObjectMeta.Name
          (extractSubsets ow ow.GetObjectMeta.Name) h k)) = true := by
    intro k hk
    rw [id_eq, hseenc]
    simp only [List.map_cons, List.map_nil, List.any_cons, List.any_nil]
    rw [hk]
    rfl
  refine ⟨?_, ?_, ?_, ?_⟩
  · rw [valGet_CheckRun_two]
    rw [stepCond_star_hit id id oc (seenStep ow []) (drKey ow.GetObjectMeta.Name)
      hc hhc hec _ hstar
      (ccCond_subset_hit _ _ _ _ _ ⟨x, oc.GetObjectMeta.Name⟩ hmemc _ hrw
        (pairHit_right _ _))]
    simp [condSome]
  · rw [valGet_CheckRun_two]
    rw [stepCond_star_hit id id oc (seenStep ow []) (drKey oc.GetObjectMeta.Name)
      hc hhc hec _ hstar
      (ccCond_subset_hit _ _ _ _ _ ⟨x, oc.GetObjectMeta.Name⟩ hmemc _ hrw
        (pairHit_left _ _))]
    simp [condSome]
  · rw [valGet_CheckRun_two]
    rw [stepCond_wildcard_hit id id ow (seenStep oc []) (drKey ow.GetObjectMeta.Name)
      hw hhw hew hsw
      (hanyB _ (ccCond_subset_hit _ _ _ _ _ ⟨x, ow.GetObjectMeta.Name⟩ hmemw _ hrc
        (pairHit_left _ _)))]
    simp [condSome]
  · rw [valGet_CheckRun_two]
    rw [stepCond_wildcard_hit id id ow (seenStep oc []) (drKey oc.GetObjectMeta.Name)
      hw hhw hew hsw
      (hanyB _ (ccCond_subset_hit _ _ _ _ _ ⟨x, ow.GetObjectMeta.Name⟩ hmemw _ hrc
        (pairHit_right _ _)))]
    simp [condSome]

/-- Witness for C4 at a concrete wildcard-host/concrete-host pair. -/
theorem wildcard_collision_either_order_witness :
    (valGet (CheckRun ⟨[wildcardSubsetObj, concreteSubsetObj]⟩) (drKey "drw")).isSome = true ∧
    (valGet (CheckRun ⟨[wildcardSubsetObj, concreteSubsetObj]⟩) (drKey "drc")).isSome = true ∧
    (valGet (CheckRun ⟨[concreteSubsetObj, wildcardSubsetObj]⟩) (drKey "drw")).isSome = true ∧
    (valGet (CheckRun ⟨[concreteSubsetObj, wildcardSubsetObj]⟩) (drKey "drc")).isSome = true :=
  wildcard_collision_either_order wildcardSubsetObj concreteSubsetObj "*" "reviews"
    "reviews" "v1" rfl rfl (by decide) (by decide) (by decide) (by decide)
    (by decide) (by decide)

end DestinationRules
